import Mathlib

/-!
Verification of the clap-detection core of `src/clap_detection.ino`
(an Arduino sketch for AVR boards, where `unsigned int` is 16 bits wide and
`unsigned long` is 32 bits wide).

The development shallowly embeds:

* the `circular_buffer` template instantiated at `<unsigned long, 128>`
  (the global `clap` ring), with `clear`, `insert` and `operator[]`;
* the configuration constants `clap_sequence_timings`, `clap_sequence_size`,
  `max_clap_deviation`, `ULTRASONIC_TIMEOUT`, `BROWNOUT`;
* the recursive matcher `detect_clap_sequence`;
* the admission guard of `loop()`.

Machine integers are modelled as `Nat` with explicit reduction modulo
`2^16` (for `unsigned int`) and `2^32` (for `unsigned long`) exactly where
the C code performs a narrowing conversion or wraps.

The matcher mutates the global ring (it clears it on success), so its
embedding threads the ring explicitly and returns a `Bool × circular_buffer`
pair.  The C recursion is turned into structural recursion on a fuel
argument: every iteration of the `while` loop and every recursive call
continues with `buffer_position + 1`, and the function returns as soon as
`buffer_position > 15`, so an activation started at `buffer_position = bp`
performs at most `16 - bp + 1 ≤ 17` steps in total; fuel `17` therefore
always suffices, and `detect_go_stable` below proves that the result is
independent of the fuel once it exceeds `16 - buffer_position`.
-/

set_option maxRecDepth 8000

/-- Width modulus of `unsigned int` on the AVR Arduino target: `2^16`. -/
def UINT_MOD : Nat := 65536

/-- Width modulus of `unsigned long` on the AVR Arduino target: `2^32`. -/
def ULONG_MOD : Nat := 4294967296

/-- The instantiation `circular_buffer<unsigned long, 128>` used by the
global `clap` ring: its compile-time capacity. -/
def buffer_size : Nat := 128

/-- State of `circular_buffer<unsigned long, 128>`: head and tail cursors
(`unsigned int`) and the backing array `data[buffer_size]`, modelled as a
total function on `Nat` whose accessed indices are always `< buffer_size`. -/
structure circular_buffer where
  head : Nat
  tail : Nat
  data : Nat → Nat

/-- The freshly constructed global `clap` ring: `head = 0`, `tail = 0`,
`T data[buffer_size] = {0}`. -/
def cb_init : circular_buffer := ⟨0, 0, fun _ => 0⟩

/-- Method `circular_buffer::clear(T value)`: sets `data[i] = value` for every
`i < buffer_size` (the stored value is an `unsigned long`). -/
def cb_clear (b : circular_buffer) (value : Nat) : circular_buffer :=
  { b with data := fun i => if i < buffer_size then value % ULONG_MOD else b.data i }

/-- Method `circular_buffer::insert(T element)`: writes `element` at the head
cursor, then advances the head with wraparound
(`head++; if (head >= buffer_size) head = 0;`).  The head is an
`unsigned int`, hence the increment modulo `UINT_MOD`; for every reachable
ring the head is `< buffer_size` so the reduction `head % UINT_MOD` in the
write index is the identity. -/
def cb_insert (b : circular_buffer) (element : Nat) : circular_buffer :=
  let d := fun i => if i = b.head % UINT_MOD then element % ULONG_MOD else b.data i
  let h := (b.head % UINT_MOD + 1) % UINT_MOD
  { b with data := d, head := if h ≥ buffer_size then 0 else h }

/-- Method `circular_buffer::operator[](unsigned int index)`:
`data[(head - index - 1) & (buffer_size - 1)]`.  The subtraction happens in
`unsigned int` arithmetic, i.e. modulo `UINT_MOD`, written here in wrapped
form `head + UINT_MOD - index - 1` (nonnegative because
`index % UINT_MOD ≤ UINT_MOD - 1`); the result is then masked with
`buffer_size - 1 = 127`. -/
def cb_get (b : circular_buffer) (index : Nat) : Nat :=
  b.data (((b.head % UINT_MOD + UINT_MOD - index % UINT_MOD - 1) % UINT_MOD)
    &&& (buffer_size - 1))

/-- Source: `const unsigned int clap_sequence_timings[] = \x7b1000, 1000\x7d;` -/
def clap_sequence_timings : List Nat := [1000, 1000]

/-- Source: `const unsigned int clap_sequence_size = 3;` -/
def clap_sequence_size : Nat := 3

/-- Source: `const unsigned int max_clap_deviation = 200;` -/
def max_clap_deviation : Nat := 200

/-- Array read `clap_sequence_timings[s]` as performed by the matcher (every reachable read
has `s < 2`, in bounds for the two-element array). -/
def clap_timing (s : Nat) : Nat := clap_sequence_timings.getD s 0

/-- Lower band bound `clap_sequence_timings[s] - max_clap_deviation`, computed in
`unsigned int` arithmetic. -/
def timing_lower (s : Nat) : Nat :=
  (clap_timing s + UINT_MOD - max_clap_deviation) % UINT_MOD

/-- Upper band bound `clap_sequence_timings[s] + max_clap_deviation`, computed in
`unsigned int` arithmetic. -/
def timing_upper (s : Nat) : Nat :=
  (clap_timing s + max_clap_deviation) % UINT_MOD

/-- Body of `detect_clap_sequence`, with the local accumulator
`current_delay` (an `unsigned int`, hence the reduction `% UINT_MOD` of
`current_delay += clap[buffer_position]`) and the mutated ring made
explicit, and with a fuel argument for the combined `while` loop /
recursion.  Each step — loop iteration or recursive call — continues at
`buffer_position + 1` and the function returns `false` as soon as
`buffer_position > 15`, so from `buffer_position = bp` at most
`17 - bp ≤ 17` steps ever run; the fuel-`0` answer `(false, b)` coincides
with the guard's answer, and `detect_go_stable` proves fuel-irrelevance
beyond `16 - bp`. -/
def detect_go : Nat → circular_buffer → Nat → Nat → Nat → Nat → Bool × circular_buffer
  | 0, b, _, _, _, _ => (false, b)
  | fuel+1, b, sequence_position, buffer_position, current_delay, can_skip =>
    if buffer_position > 15 then (false, b)
    else
      let cd := (current_delay + cb_get b buffer_position) % UINT_MOD
      if cd < timing_lower sequence_position then
        detect_go fuel b sequence_position (buffer_position + 1) cd can_skip
      else if cd > timing_upper sequence_position then (false, b)
      else if sequence_position = 0 then (true, cb_clear b 0)
      else detect_go fuel b (sequence_position - 1) (buffer_position + 1) 0 can_skip

/-- Entry point `bool detect_clap_sequence(unsigned int sequence_position, unsigned int
buffer_position, unsigned int can_skip)`, acting on the given ring and
returning the result together with the (possibly cleared) ring.
`current_delay` starts at `0`; fuel `17` always suffices (see
`detect_go_stable`). -/
def detect_clap_sequence (b : circular_buffer)
    (sequence_position buffer_position can_skip : Nat) : Bool × circular_buffer :=
  detect_go 17 b sequence_position buffer_position 0 can_skip

/-- Source: `#define ULTRASONIC_TIMEOUT 133000` -/
def ULTRASONIC_TIMEOUT : Nat := 133000

/-- Source: `#define BROWNOUT 720` -/
def BROWNOUT : Nat := 720

/-- The admission guard of `loop()`:
`pulse_duration < ULTRASONIC_TIMEOUT && analogRead(BROWNOUT_DETECT_PIN) < BROWNOUT`.
`on_sound_detected()` runs exactly when this is `true`. -/
def loop_admits (pulse_duration brownout_reading : Nat) : Bool :=
  decide (pulse_duration < ULTRASONIC_TIMEOUT) && decide (brownout_reading < BROWNOUT)

/-- Folding a list of samples into the ring, oldest first: the events of a
run, fed through `clap.insert`. -/
def insert_list (b : circular_buffer) (L : List Nat) : circular_buffer :=
  L.foldl cb_insert b

/-- Sum of the `n` ring samples at ages `bp, bp+1, …, bp+n-1` (exact
arithmetic, no truncation). -/
def age_sum (b : circular_buffer) (bp : Nat) : Nat → Nat
  | 0 => 0
  | n+1 => age_sum b bp n + cb_get b (bp + n)

/-- Well-formedness of a ring: the head cursor is inside the array, which
`cb_init` establishes and `cb_insert` maintains. -/
def cb_wf (b : circular_buffer) : Prop := b.head < buffer_size

/-- Concrete rings used by the claims below. -/
def ring_exact : circular_buffer := insert_list cb_init [1000, 1000]

/-- Events at 0, 1020, 2050 ms: samples 1020 then 1030. -/
def ring_scene1 : circular_buffer := insert_list cb_init [1020, 1030]

/-- Events at 0, 1020, 2500 ms: samples 1020 then 1480. -/
def ring_scene2 : circular_buffer := insert_list cb_init [1020, 1480]

/-- Events at 0, 1020, 1450, 2050 ms: samples 1020, 430, 600. -/
def ring_scene3 : circular_buffer := insert_list cb_init [1020, 430, 600]

/-- Events whose second gap sums to 600 + 700 = 1300, beyond the band. -/
def ring_over : circular_buffer := insert_list cb_init [600, 700]

/-- Samples 1000, 230, 800 (newest first: 800, 230, 1000): both intended
gap sums (800 + 230 = 1030 and 1000) lie inside the tolerance band, but the
greedy matcher commits to the gap `800` alone. -/
def ring_greedy : circular_buffer := insert_list cb_init [1000, 230, 800]

/-- The exact pattern with the newest sample replaced by
1000 + 2^16 = 66536, exhibiting the 16-bit truncation of the accumulator. -/
def ring_wrap : circular_buffer := insert_list cb_init [1000, 66536]

/-- The exact pattern with the newest sample replaced by 1300 (outside the
band, no truncation). -/
def ring_sub : circular_buffer := insert_list cb_init [1000, 1300]

/-- Both gap sums sit exactly on the tolerance boundaries: newest sample
1200 = target + tolerance, older sample 800 = target - tolerance. -/
def ring_bound : circular_buffer := insert_list cb_init [800, 1200]

theorem detect_go_succ (fuel : Nat) (b : circular_buffer) (s bp cd cs : Nat) :
    detect_go (fuel+1) b s bp cd cs =
      if bp > 15 then (false, b)
      else if (cd + cb_get b bp) % UINT_MOD < timing_lower s then
        detect_go fuel b s (bp+1) ((cd + cb_get b bp) % UINT_MOD) cs
      else if (cd + cb_get b bp) % UINT_MOD > timing_upper s then (false, b)
      else if s = 0 then (true, cb_clear b 0)
      else detect_go fuel b (s-1) (bp+1) 0 cs := rfl

theorem cb_insert_head (b : circular_buffer) (a : Nat) :
    (cb_insert b a).head =
      if (b.head % UINT_MOD + 1) % UINT_MOD ≥ buffer_size then 0
      else (b.head % UINT_MOD + 1) % UINT_MOD := rfl

theorem cb_insert_data (b : circular_buffer) (a j : Nat) :
    (cb_insert b a).data j =
      if j = b.head % UINT_MOD then a % ULONG_MOD else b.data j := rfl

theorem cb_mask_eq_mod (x : Nat) : x &&& (buffer_size - 1) = x % buffer_size := by
  have h := Nat.and_pow_two_sub_one_eq_mod x 7
  norm_num [buffer_size] at h ⊢
  exact h

theorem cb_get_eq (b : circular_buffer) (i : Nat) :
    cb_get b i =
      b.data ((b.head % UINT_MOD + UINT_MOD - i % UINT_MOD - 1) % UINT_MOD % buffer_size) := by
  rw [cb_get, cb_mask_eq_mod]

theorem cb_get_zero (b : circular_buffer) (i : Nat)
    (hz : ∀ j < buffer_size, b.data j = 0) : cb_get b i = 0 := by
  rw [cb_get_eq]
  exact hz _ (Nat.mod_lt _ (by norm_num [buffer_size]))

theorem cb_get_clear (b : circular_buffer) (v i : Nat) :
    cb_get (cb_clear b v) i = v % ULONG_MOD := by
  rw [cb_get_eq]
  show (if _ < buffer_size then v % ULONG_MOD else _) = v % ULONG_MOD
  rw [if_pos (Nat.mod_lt _ (by norm_num [buffer_size]))]

theorem cb_wf_init : cb_wf cb_init := by norm_num [cb_wf, cb_init, buffer_size]

theorem cb_wf_insert (b : circular_buffer) (a : Nat) : cb_wf (cb_insert b a) := by
  rw [cb_wf, cb_insert_head]
  simp only [UINT_MOD, buffer_size]
  split <;> omega

theorem cb_wf_insert_list (b : circular_buffer) (L : List Nat) (h : cb_wf b) :
    cb_wf (insert_list b L) := by
  induction L generalizing b with
  | nil => exact h
  | cons a L ih => exact ih (cb_insert b a) (cb_wf_insert b a)

theorem insert_list_append (b : circular_buffer) (L : List Nat) (a : Nat) :
    insert_list b (L ++ [a]) = cb_insert (insert_list b L) a := by
  simp [insert_list, List.foldl_append]

theorem cb_get_insert_zero (b : circular_buffer) (a : Nat) (h : cb_wf b) :
    cb_get (cb_insert b a) 0 = a % ULONG_MOD := by
  have hh : b.head < 128 := by simpa [cb_wf, buffer_size] using h
  rw [cb_get_eq, cb_insert_data, cb_insert_head]
  have hidx : ((if (b.head % UINT_MOD + 1) % UINT_MOD ≥ buffer_size then 0
      else (b.head % UINT_MOD + 1) % UINT_MOD) % UINT_MOD + UINT_MOD - 0 % UINT_MOD - 1)
      % UINT_MOD % buffer_size = b.head % UINT_MOD := by
    simp only [UINT_MOD, buffer_size]
    split <;> omega
  rw [hidx, if_pos rfl]

theorem cb_get_insert_succ (b : circular_buffer) (a i : Nat) (h : cb_wf b)
    (h1 : 1 ≤ i) (h2 : i < buffer_size) :
    cb_get (cb_insert b a) i = cb_get b (i - 1) := by
  have hh : b.head < 128 := by simpa [cb_wf, buffer_size] using h
  have hi : i < 128 := by simpa [buffer_size] using h2
  rw [cb_get_eq, cb_get_eq, cb_insert_data, cb_insert_head]
  have hidx : ((if (b.head % UINT_MOD + 1) % UINT_MOD ≥ buffer_size then 0
      else (b.head % UINT_MOD + 1) % UINT_MOD) % UINT_MOD + UINT_MOD - i % UINT_MOD - 1)
      % UINT_MOD % buffer_size
      = (b.head % UINT_MOD + UINT_MOD - (i - 1) % UINT_MOD - 1) % UINT_MOD % buffer_size := by
    simp only [UINT_MOD, buffer_size]
    split <;> omega
  have hne : (b.head % UINT_MOD + UINT_MOD - (i - 1) % UINT_MOD - 1) % UINT_MOD % buffer_size
      ≠ b.head % UINT_MOD := by
    simp only [UINT_MOD, buffer_size]
    omega
  rw [hidx, if_neg hne]

theorem timing_lower_lt (s : Nat) : timing_lower s < UINT_MOD :=
  Nat.mod_lt _ (by norm_num [UINT_MOD])

theorem detect_go_out (fuel : Nat) (b : circular_buffer) (s bp cd cs : Nat)
    (h : bp > 15) : detect_go fuel b s bp cd cs = (false, b) := by
  cases fuel with
  | zero => rfl
  | succ fuel => rw [detect_go_succ, if_pos h]

theorem detect_go_zeros (fuel : Nat) : ∀ (b : circular_buffer) (s bp cd cs : Nat),
    cd < timing_lower s → cd < UINT_MOD →
    (∀ i, bp ≤ i → i ≤ 15 → cb_get b i = 0) →
    detect_go fuel b s bp cd cs = (false, b) := by
  induction fuel with
  | zero => intro b s bp cd cs _ _ _; rfl
  | succ fuel ih =>
    intro b s bp cd cs hlo hcd hz
    rw [detect_go_succ]
    by_cases hbp : bp > 15
    · rw [if_pos hbp]
    · rw [if_neg hbp]
      have hz0 : cb_get b bp = 0 := hz bp le_rfl (by omega)
      have hmod : (cd + cb_get b bp) % UINT_MOD = cd := by
        rw [hz0, Nat.add_zero]
        exact Nat.mod_eq_of_lt hcd
      rw [hmod, if_pos hlo]
      exact ih b s (bp+1) cd cs hlo hcd (fun i h1 h2 => hz i (by omega) h2)

theorem detect_go_stable_succ (fuel : Nat) : ∀ (b : circular_buffer) (s bp cd cs : Nat),
    16 - bp < fuel →
    detect_go fuel b s bp cd cs = detect_go (fuel+1) b s bp cd cs := by
  induction fuel with
  | zero => intro b s bp cd cs h; omega
  | succ fuel ih =>
    intro b s bp cd cs h
    rw [detect_go_succ, detect_go_succ (fuel+1)]
    by_cases hbp : bp > 15
    · rw [if_pos hbp, if_pos hbp]
    · have h' : 16 - (bp+1) < fuel := by omega
      rw [if_neg hbp, if_neg hbp]
      split
      · exact ih b s (bp+1) _ cs h'
      · split
        · rfl
        · split
          · rfl
          · exact ih b (s-1) (bp+1) 0 cs h'

theorem detect_go_add (k fuel : Nat) (b : circular_buffer) (s bp cd cs : Nat)
    (h : 16 - bp < fuel) :
    detect_go fuel b s bp cd cs = detect_go (fuel + k) b s bp cd cs := by
  induction k with
  | zero => rfl
  | succ k ih =>
    rw [ih]
    exact detect_go_stable_succ (fuel + k) b s bp cd cs (by omega)

theorem detect_go_stable (f₁ f₂ : Nat) (b : circular_buffer) (s bp cd cs : Nat)
    (h₁ : 16 - bp < f₁) (h₂ : 16 - bp < f₂) :
    detect_go f₁ b s bp cd cs = detect_go f₂ b s bp cd cs := by
  rcases Nat.le_total f₁ f₂ with h | h
  · obtain ⟨k, rfl⟩ := Nat.le.dest h
    exact detect_go_add k f₁ b s bp cd cs h₁
  · obtain ⟨k, rfl⟩ := Nat.le.dest h
    exact (detect_go_add k f₂ b s bp cd cs h₂).symm

theorem detect_go_can_skip (fuel : Nat) : ∀ (b : circular_buffer) (s bp cd cs cs' : Nat),
    detect_go fuel b s bp cd cs = detect_go fuel b s bp cd cs' := by
  induction fuel with
  | zero => intros; rfl
  | succ fuel ih =>
    intro b s bp cd cs cs'
    rw [detect_go_succ, detect_go_succ]
    split
    · rfl
    · split
      · exact ih b s (bp+1) _ cs cs'
      · split
        · rfl
        · split
          · rfl
          · exact ih b (s-1) (bp+1) 0 cs cs'

theorem detect_go_false_ring (fuel : Nat) : ∀ (b : circular_buffer) (s bp cd cs : Nat),
    (detect_go fuel b s bp cd cs).1 = false → (detect_go fuel b s bp cd cs).2 = b := by
  induction fuel with
  | zero => intros; rfl
  | succ fuel ih =>
    intro b s bp cd cs h
    rw [detect_go_succ] at h ⊢
    by_cases hbp : bp > 15
    · rw [if_pos hbp]
    · rw [if_neg hbp] at h ⊢
      split at h
      · rw [if_pos (by assumption)]
        exact ih b s (bp+1) _ cs h
      · rw [if_neg (by assumption)]
        split at h
        · rw [if_pos (by assumption)]
        · rw [if_neg (by assumption)]
          split at h
          · simp at h
          · rw [if_neg (by assumption)]
            exact ih b (s-1) (bp+1) 0 cs h

theorem detect_go_true_clear (fuel : Nat) : ∀ (b : circular_buffer) (s bp cd cs : Nat),
    (detect_go fuel b s bp cd cs).1 = true →
    (detect_go fuel b s bp cd cs).2 = cb_clear b 0 := by
  induction fuel with
  | zero => intro b s bp cd cs h; simp [detect_go] at h
  | succ fuel ih =>
    intro b s bp cd cs h
    rw [detect_go_succ] at h ⊢
    by_cases hbp : bp > 15
    · rw [if_pos hbp] at h
      simp at h
    · rw [if_neg hbp] at h ⊢
      split at h
      · rw [if_pos (by assumption)]
        exact ih b s (bp+1) _ cs h
      · rw [if_neg (by assumption)]
        split at h
        · simp at h
        · rw [if_neg (by assumption)]
          split at h
          · rw [if_pos (by assumption)]
          · rw [if_neg (by assumption)]
            exact ih b (s-1) (bp+1) 0 cs h

theorem age_sum_one (b : circular_buffer) (bp : Nat) :
    age_sum b bp 1 = cb_get b bp := by
  simp [age_sum]

theorem age_sum_succ_left (b : circular_buffer) (bp : Nat) : ∀ k,
    age_sum b bp (k+1) = cb_get b bp + age_sum b (bp+1) k := by
  intro k
  induction k with
  | zero => simp [age_sum]
  | succ k ih =>
    rw [show age_sum b bp (k+1+1) = age_sum b bp (k+1) + cb_get b (bp + (k+1)) from rfl]
    rw [ih]
    rw [show age_sum b (bp+1) (k+1) = age_sum b (bp+1) k + cb_get b ((bp+1) + k) from rfl]
    rw [show bp + (k+1) = (bp+1) + k from by omega]
    omega

theorem absorb_match : ∀ (n fuel : Nat) (b : circular_buffer) (s bp cd cs : Nat),
    bp + n ≤ 15 → 16 - bp < fuel → timing_upper s < UINT_MOD →
    (∀ j < n, cd + age_sum b bp (j+1) < timing_lower s) →
    timing_lower s ≤ cd + age_sum b bp (n+1) →
    cd + age_sum b bp (n+1) ≤ timing_upper s →
    detect_go fuel b s bp cd cs =
      if s = 0 then (true, cb_clear b 0)
      else detect_go (fuel - (n+1)) b (s-1) (bp + (n+1)) 0 cs := by
  intro n
  induction n with
  | zero =>
    intro fuel b s bp cd cs hbp hfuel hup hpre hlo hhi
    obtain ⟨f, rfl⟩ : ∃ f, fuel = f + 1 := ⟨fuel - 1, by omega⟩
    rw [age_sum_one] at hlo hhi
    rw [detect_go_succ, if_neg (by omega)]
    have hmod : (cd + cb_get b bp) % UINT_MOD = cd + cb_get b bp :=
      Nat.mod_eq_of_lt (by omega)
    rw [hmod, if_neg (by omega), if_neg (by omega)]
    simp only [Nat.add_sub_cancel, Nat.zero_add]
  | succ n ih =>
    intro fuel b s bp cd cs hbp hfuel hup hpre hlo hhi
    obtain ⟨f, rfl⟩ : ∃ f, fuel = f + 1 := ⟨fuel - 1, by omega⟩
    have h0 : cd + age_sum b bp 1 < timing_lower s := hpre 0 (by omega)
    rw [age_sum_one] at h0
    have hllt : timing_lower s < UINT_MOD := timing_lower_lt s
    rw [detect_go_succ, if_neg (by omega)]
    have hmod : (cd + cb_get b bp) % UINT_MOD = cd + cb_get b bp :=
      Nat.mod_eq_of_lt (by omega)
    rw [hmod, if_pos h0]
    have hshift : ∀ k, cd + age_sum b bp (k+1) = (cd + cb_get b bp) + age_sum b (bp+1) k := by
      intro k
      rw [age_sum_succ_left]
      omega
    have hpre' : ∀ j < n, (cd + cb_get b bp) + age_sum b (bp+1) (j+1) < timing_lower s := by
      intro j hj
      rw [← hshift (j+1)]
      exact hpre (j+1) (by omega)
    have hlo' : timing_lower s ≤ (cd + cb_get b bp) + age_sum b (bp+1) (n+1) := by
      rw [← hshift (n+1)]
      exact hlo
    have hhi' : (cd + cb_get b bp) + age_sum b (bp+1) (n+1) ≤ timing_upper s := by
      rw [← hshift (n+1)]
      exact hhi
    rw [ih f b s (bp+1) (cd + cb_get b bp) cs (by omega) (by omega) hup hpre' hlo' hhi']
    rw [show f + 1 - (n + 1 + 1) = f - (n + 1) from by omega]
    rw [show bp + (n + 1 + 1) = (bp + 1) + (n + 1) from by omega]

theorem insert_list_get : ∀ (L : List Nat) (b : circular_buffer), cb_wf b →
    (∀ j < buffer_size, b.data j = 0) → (∀ a ∈ L, a < ULONG_MOD) →
    ∀ i < buffer_size,
    cb_get (insert_list b L) i =
      if i < L.length then L.getD (L.length - 1 - i) 0 else 0 := by
  intro L
  induction L using List.reverseRecOn with
  | nil =>
    intro b hwf hz _ i hi
    rw [show insert_list b [] = b from rfl]
    rw [cb_get_zero b i hz, if_neg (by simp)]
  | append_singleton L a ih =>
    intro b hwf hz hlt i hi
    rw [insert_list_append]
    have hwfL : cb_wf (insert_list b L) := cb_wf_insert_list b L hwf
    rcases Nat.eq_zero_or_pos i with rfl | hpos
    · rw [cb_get_insert_zero _ _ hwfL]
      have ha : a < ULONG_MOD := hlt a (by simp)
      rw [Nat.mod_eq_of_lt ha, if_pos (by simp)]
      rw [show (L ++ [a]).length - 1 - 0 = L.length from by simp]
      rw [List.getD_eq_getElem?_getD, List.getElem?_concat_length]
      rfl
    · rw [cb_get_insert_succ _ _ _ hwfL hpos hi]
      rw [ih b hwf hz (fun x hx => hlt x (by simp [hx])) (i-1) (by omega)]
      by_cases hc : i - 1 < L.length
      · rw [if_pos hc, if_pos (by simp; omega)]
        rw [show (L ++ [a]).length - 1 - i = L.length - 1 - (i - 1) from by simp; omega]
        rw [List.getD_append _ _ _ _ (by omega)]
      · rw [if_neg hc, if_neg (by simp; omega)]

/-- Claim C1: for the configured pattern of `N = clap_sequence_size` events,
if the ring's samples at ages `0 .. N-2` equal the target intervals read
newest-to-oldest (the sample at age `k` equals
`clap_sequence_timings[N-2-k]`), then `detect_clap_sequence (N-2) 0 c`
returns `true` for every value of `c`, and immediately afterwards every
slot of the ring equals `0`. -/
theorem claim_C1 (b : circular_buffer) (c : Nat)
    (hk : ∀ k ≤ clap_sequence_size - 2,
      cb_get b k = clap_timing (clap_sequence_size - 2 - k)) :
    (detect_clap_sequence b (clap_sequence_size - 2) 0 c).1 = true ∧
    ∀ i < buffer_size, (detect_clap_sequence b (clap_sequence_size - 2) 0 c).2.data i = 0 := by
  have h0 : cb_get b 0 = 1000 := by
    have h := hk 0 (by norm_num [clap_sequence_size])
    simpa [clap_timing, clap_sequence_timings, clap_sequence_size] using h
  have h1 : cb_get b 1 = 1000 := by
    have h := hk 1 (by norm_num [clap_sequence_size])
    simpa [clap_timing, clap_sequence_timings, clap_sequence_size] using h
  have key : detect_clap_sequence b (clap_sequence_size - 2) 0 c = (true, cb_clear b 0) := by
    show detect_go 17 b 1 0 0 c = (true, cb_clear b 0)
    rw [show (17:Nat) = 16+1 from rfl, detect_go_succ, if_neg (by norm_num)]
    rw [h0]
    norm_num [timing_lower, timing_upper, clap_timing, clap_sequence_timings,
      max_clap_deviation, UINT_MOD]
    rw [show (16:Nat) = 15+1 from rfl, detect_go_succ, if_neg (by norm_num)]
    rw [h1]
    norm_num [timing_lower, timing_upper, clap_timing, clap_sequence_timings,
      max_clap_deviation, UINT_MOD]
  rw [key]
  refine ⟨rfl, ?_⟩
  intro i hi
  simp [cb_clear, hi]

/-- Witness for C1 at the concrete ring holding exactly the two target
intervals. -/
theorem claim_C1_witness :
    (∀ k ≤ clap_sequence_size - 2,
      cb_get ring_exact k = clap_timing (clap_sequence_size - 2 - k)) ∧
    ((detect_clap_sequence ring_exact (clap_sequence_size - 2) 0 0).1 = true ∧
     ∀ i < buffer_size,
       (detect_clap_sequence ring_exact (clap_sequence_size - 2) 0 0).2.data i = 0) :=
  ⟨by decide, claim_C1 ring_exact 0 (by decide)⟩

/-- Counterexample to C2's unguarded noise-absorption clause.  In
`ring_greedy` (samples newest-first 800, 230, 1000, i.e. one extra noise
event strictly between the last two true pattern events) both resulting
gap sums lie inside the tolerance band — the newer gap 800 + 230 = 1030
and the older gap 1000 — yet the matcher returns `false`: it greedily
commits to the sub-gap 800 alone (already inside the band), and the
leftover 230 then overshoots on the next target. -/
theorem claim_C2_cex :
    timing_lower (clap_sequence_size - 2) ≤ age_sum ring_greedy 0 2 ∧
    age_sum ring_greedy 0 2 ≤ timing_upper (clap_sequence_size - 2) ∧
    timing_lower 0 ≤ age_sum ring_greedy 2 1 ∧
    age_sum ring_greedy 2 1 ≤ timing_upper 0 ∧
    (detect_clap_sequence ring_greedy (clap_sequence_size - 2) 0 0).1 = false :=
  ⟨by decide, by decide, by decide, by decide, by decide⟩

/-- Claim C2 (amended): the three concrete scenarios hold as stated —
events at 0, 1020, 2050 (samples 1030, 1020) match and clear the ring;
events at 0, 1020, 2500 (newest sample 1480) do not match; events at
0, 1020, 1450, 2050 (samples 600, 430, 1020, the 600 + 430 gap summing to
1030) match — and a gap sum exceeding `target + tolerance` does not match
(samples 700, 600).  Noise absorption holds whenever each resulting gap
sum stays within `target ± tolerance` AND every proper partial sum of
each gap stays strictly below `target - tolerance` (the matcher commits
greedily to the first partial sum that reaches the band, so this extra
condition is forced by `claim_C2_cex`). -/
theorem claim_C2 :
    ((detect_clap_sequence ring_scene1 (clap_sequence_size - 2) 0 0).1 = true ∧
     ∀ i < buffer_size,
       (detect_clap_sequence ring_scene1 (clap_sequence_size - 2) 0 0).2.data i = 0) ∧
    (detect_clap_sequence ring_scene2 (clap_sequence_size - 2) 0 0).1 = false ∧
    ((detect_clap_sequence ring_scene3 (clap_sequence_size - 2) 0 0).1 = true ∧
     cb_get ring_scene3 0 = 600 ∧ cb_get ring_scene3 1 = 430 ∧
     cb_get ring_scene3 2 = 1020 ∧
     cb_get ring_scene3 0 + cb_get ring_scene3 1 = 1030) ∧
    (detect_clap_sequence ring_over (clap_sequence_size - 2) 0 0).1 = false ∧
    (∀ (b : circular_buffer) (c n m : Nat),
      n + 1 + m ≤ 15 →
      (∀ j < n, age_sum b 0 (j+1) < timing_lower (clap_sequence_size - 2)) →
      timing_lower (clap_sequence_size - 2) ≤ age_sum b 0 (n+1) →
      age_sum b 0 (n+1) ≤ timing_upper (clap_sequence_size - 2) →
      (∀ j < m, age_sum b (n+1) (j+1) < timing_lower 0) →
      timing_lower 0 ≤ age_sum b (n+1) (m+1) →
      age_sum b (n+1) (m+1) ≤ timing_upper 0 →
      (detect_clap_sequence b (clap_sequence_size - 2) 0 c).1 = true) := by
  refine ⟨⟨by decide, by decide⟩, by decide,
    ⟨by decide, by decide, by decide, by decide, by decide⟩, by decide, ?_⟩
  intro b c n m hnm h1 h2 h3 h4 h5 h6
  show (detect_go 17 b 1 0 0 c).1 = true
  rw [absorb_match n 17 b 1 0 0 c (by omega) (by omega) (by decide)
    (fun j hj => by simpa using h1 j hj) (by simpa using h2) (by simpa using h3)]
  rw [if_neg (by norm_num)]
  simp only [Nat.zero_add, Nat.sub_self]
  rw [absorb_match m (17 - (n+1)) b 0 (n+1) 0 c (by omega) (by omega) (by decide)
    (fun j hj => by simpa using h4 j hj) (by simpa using h5) (by simpa using h6)]
  rw [if_pos rfl]

/-- Witness for C2's general noise-absorption clause at `ring_scene3`
(gap ages 0–1 summing to 1030 with partial sum 600 below the band, then
gap age 2 equal to 1020). -/
theorem claim_C2_witness :
    (1 + 1 + 0 ≤ 15) ∧
    (∀ j < 1, age_sum ring_scene3 0 (j+1) < timing_lower (clap_sequence_size - 2)) ∧
    (timing_lower (clap_sequence_size - 2) ≤ age_sum ring_scene3 0 2) ∧
    (age_sum ring_scene3 0 2 ≤ timing_upper (clap_sequence_size - 2)) ∧
    (∀ j < 0, age_sum ring_scene3 2 (j+1) < timing_lower 0) ∧
    (timing_lower 0 ≤ age_sum ring_scene3 2 1) ∧
    (age_sum ring_scene3 2 1 ≤ timing_upper 0) ∧
    (detect_clap_sequence ring_scene3 (clap_sequence_size - 2) 0 0).1 = true :=
  ⟨by decide, by decide, by decide, by decide, by decide, by decide, by decide,
   claim_C2.2.2.2.2 ring_scene3 0 1 0 (by decide) (by decide) (by decide)
     (by decide) (by decide) (by decide) (by decide)⟩

/-- Counterexample to C3 as stated.  `ring_wrap` is the exact pattern
with the age-0 sample replaced by 66536 = 1000 + 2^16; the substituted
value lies strictly outside the band (1200 < 66536), yet the matcher
returns `true`, because the 16-bit accumulator `current_delay` truncates
66536 to 1000. -/
theorem claim_C3_cex :
    (∀ i ≤ 15, cb_get ring_wrap i =
      if i = 0 then 66536
      else if i ≤ clap_sequence_size - 2 then clap_timing (clap_sequence_size - 2 - i)
      else 0) ∧
    timing_upper (clap_sequence_size - 2 - 0) < 66536 ∧
    (detect_clap_sequence ring_wrap (clap_sequence_size - 2) 0 0).1 = true :=
  ⟨by decide, by decide, by decide⟩

/-- Claim C3 (amended): starting from a ring whose newest `N-1` samples
exactly equal the target intervals (older slots zero up to the scan
bound), replacing any single one of those samples by a value `v` whose
residue modulo 2^16 — the width of the `unsigned int` accumulator — lies
outside the gap's band `target ± max_clap_deviation` makes
`detect_clap_sequence (N-2) 0 c` return `false`, for every substituted
gap and every such value.  (The residue restriction is forced by
`claim_C3_cex`.) -/
theorem claim_C3 (b : circular_buffer) (c k v : Nat)
    (hk : k ≤ clap_sequence_size - 2)
    (hr : ∀ i ≤ 15, cb_get b i =
      if i = k then v
      else if i ≤ clap_sequence_size - 2 then clap_timing (clap_sequence_size - 2 - i)
      else 0)
    (hv : v % UINT_MOD < timing_lower (clap_sequence_size - 2 - k) ∨
          timing_upper (clap_sequence_size - 2 - k) < v % UINT_MOD) :
    (detect_clap_sequence b (clap_sequence_size - 2) 0 c).1 = false := by
  have hk' : k ≤ 1 := by simpa [clap_sequence_size] using hk
  have hz : ∀ i, 2 ≤ i → i ≤ 15 → cb_get b i = 0 := by
    intro i h2i h15
    rw [hr i h15, if_neg (by omega), if_neg (by norm_num [clap_sequence_size]; omega)]
  show (detect_go 17 b 1 0 0 c).1 = false
  interval_cases k
  · -- the newest sample (age 0, matched against target index 1) is replaced
    have h0 : cb_get b 0 = v := by
      rw [hr 0 (by norm_num)]
      norm_num
    have h1 : cb_get b 1 = 1000 := by
      rw [hr 1 (by norm_num)]
      norm_num [clap_sequence_size, clap_timing, clap_sequence_timings]
    rw [show clap_sequence_size - 2 - 0 = 1 from by decide] at hv
    rw [show timing_lower 1 = 800 from by decide,
      show timing_upper 1 = 1200 from by decide] at hv
    simp only [UINT_MOD] at hv
    rw [show (17:Nat) = 16+1 from rfl, detect_go_succ, if_neg (by norm_num), h0]
    simp only [Nat.zero_add, UINT_MOD]
    rw [show timing_lower 1 = 800 from by decide,
      show timing_upper 1 = 1200 from by decide]
    rcases hv with hlt | hgt
    · rw [if_pos hlt]
      rw [show (16:Nat) = 15+1 from rfl, detect_go_succ, if_neg (by norm_num), h1]
      simp only [UINT_MOD]
      have hm : (v % 65536 + 1000) % 65536 = v % 65536 + 1000 :=
        Nat.mod_eq_of_lt (by omega)
      simp only [hm]
      rw [show timing_lower 1 = 800 from by decide,
        show timing_upper 1 = 1200 from by decide]
      rw [if_neg (by omega)]
      by_cases hs : v % 65536 ≤ 200
      · rw [if_neg (by omega), if_neg (by norm_num)]
        rw [detect_go_zeros 15 b 0 2 0 c (by decide) (by decide) hz]
      · rw [if_pos (by omega)]
    · rw [if_neg (by omega), if_pos (by omega)]
  · -- the older sample (age 1, matched against target index 0) is replaced
    have h0 : cb_get b 0 = 1000 := by
      rw [hr 0 (by norm_num)]
      norm_num [clap_sequence_size, clap_timing, clap_sequence_timings]
    have h1 : cb_get b 1 = v := by
      rw [hr 1 (by norm_num)]
      norm_num
    rw [show clap_sequence_size - 2 - 1 = 0 from by decide] at hv
    rw [show timing_lower 0 = 800 from by decide,
      show timing_upper 0 = 1200 from by decide] at hv
    simp only [UINT_MOD] at hv
    rw [show (17:Nat) = 16+1 from rfl, detect_go_succ, if_neg (by norm_num), h0]
    simp only [Nat.zero_add, UINT_MOD]
    rw [show (1000:Nat) % 65536 = 1000 from by norm_num]
    rw [if_neg (by decide), if_neg (by decide), if_neg (by norm_num)]
    rw [show (16:Nat) = 15+1 from rfl, detect_go_succ, if_neg (by norm_num), h1]
    simp only [Nat.zero_add, UINT_MOD]
    rw [show timing_lower 0 = 800 from by decide,
      show timing_upper 0 = 1200 from by decide]
    rcases hv with hlt | hgt
    · rw [if_pos hlt]
      have : (detect_go 15 b 0 2 (v % 65536) c) = (false, b) :=
        detect_go_zeros 15 b 0 2 (v % 65536) c (by rw [show timing_lower 0 = 800 from by decide]; omega)
          (by simp only [UINT_MOD]; omega) hz
      rw [this]
    · rw [if_neg (by omega), if_pos (by omega)]

/-- Witness for C3 (amended) at `ring_sub`: the newest sample replaced by
1300, outside the band and below 2^16. -/
theorem claim_C3_witness :
    (0 ≤ clap_sequence_size - 2) ∧
    (∀ i ≤ 15, cb_get ring_sub i =
      if i = 0 then 1300
      else if i ≤ clap_sequence_size - 2 then clap_timing (clap_sequence_size - 2 - i)
      else 0) ∧
    (1300 % UINT_MOD < timing_lower (clap_sequence_size - 2 - 0) ∨
     timing_upper (clap_sequence_size - 2 - 0) < 1300 % UINT_MOD) ∧
    (detect_clap_sequence ring_sub (clap_sequence_size - 2) 0 0).1 = false :=
  ⟨by decide, by decide, by decide,
   claim_C3 ring_sub 0 0 1300 (by decide) (by decide) (by decide)⟩

/-- Claim C4: the acceptance band of each gap is closed.  For every valid
sequence position and in-bound buffer position, an accumulated sum landing
exactly on `timing_lower s` or `timing_upper s` takes the satisfied branch
(success at position 0, otherwise recursion to position `s-1`); a sum
strictly below the lower bound absorbs one more sample; a sum strictly
above the upper bound fails.  Matching the full pattern with both sums
exactly on the boundaries succeeds (`ring_bound`, samples 1200 and 800). -/
theorem claim_C4 (fuel : Nat) (b : circular_buffer) (s bp cd cs : Nat)
    (hs : s < clap_sequence_size - 1) (hbp : bp ≤ 15) :
    (((cd + cb_get b bp) % UINT_MOD = timing_lower s ∨
      (cd + cb_get b bp) % UINT_MOD = timing_upper s) →
      detect_go (fuel+1) b s bp cd cs =
        if s = 0 then (true, cb_clear b 0)
        else detect_go fuel b (s-1) (bp+1) 0 cs) ∧
    ((cd + cb_get b bp) % UINT_MOD < timing_lower s →
      detect_go (fuel+1) b s bp cd cs =
        detect_go fuel b s (bp+1) ((cd + cb_get b bp) % UINT_MOD) cs) ∧
    (timing_upper s < (cd + cb_get b bp) % UINT_MOD →
      detect_go (fuel+1) b s bp cd cs = (false, b)) ∧
    (detect_clap_sequence ring_bound (clap_sequence_size - 2) 0 0).1 = true := by
  have hs2 : s < 2 := by simpa [clap_sequence_size] using hs
  have hlo : timing_lower s = 800 := by interval_cases s <;> decide
  have hup : timing_upper s = 1200 := by interval_cases s <;> decide
  refine ⟨?_, ?_, ?_, by decide⟩
  · rintro (h | h) <;>
      rw [detect_go_succ, if_neg (by omega), if_neg (by omega), if_neg (by omega)]
  · intro h
    rw [detect_go_succ, if_neg (by omega), if_pos h]
  · intro h
    rw [detect_go_succ, if_neg (by omega), if_neg (by omega), if_pos (by omega)]

/-- Witness for C4 at `ring_bound`: the first accumulated sum is exactly
`timing_upper 1 = 1200`, and the boundary branch recurses to position 0. -/
theorem claim_C4_witness :
    (1 < clap_sequence_size - 1) ∧ (0 ≤ 15) ∧
    ((0 + cb_get ring_bound 0) % UINT_MOD = timing_upper 1) ∧
    detect_go (16+1) ring_bound 1 0 0 0 =
      (if 1 = 0 then (true, cb_clear ring_bound 0)
       else detect_go 16 ring_bound (1-1) (0+1) 0 0) :=
  ⟨by decide, by decide, by decide,
   (claim_C4 16 ring_bound 1 0 0 0 (by decide) (by decide)).1 (Or.inr (by decide))⟩

/-- Claim C5: whenever the matcher returns `true`, every slot of the ring
is zero immediately afterwards, and a second invocation
`detect_clap_sequence (N-2) 0 c` on that cleared ring, with no
intervening insertions, returns `false`. -/
theorem claim_C5 (b : circular_buffer) (s bp cs c' : Nat)
    (h : (detect_clap_sequence b s bp cs).1 = true) :
    (∀ i < buffer_size, (detect_clap_sequence b s bp cs).2.data i = 0) ∧
    (detect_clap_sequence (detect_clap_sequence b s bp cs).2
      (clap_sequence_size - 2) 0 c').1 = false := by
  have h2 : (detect_clap_sequence b s bp cs).2 = cb_clear b 0 :=
    detect_go_true_clear 17 b s bp 0 cs h
  constructor
  · intro i hi
    rw [h2]
    simp [cb_clear, hi]
  · rw [h2]
    show (detect_go 17 (cb_clear b 0) 1 0 0 c').1 = false
    rw [detect_go_zeros 17 (cb_clear b 0) 1 0 0 c' (by decide) (by decide)
      (fun i _ _ => by rw [cb_get_clear]; simp)]

/-- Witness for C5 at the matching ring `ring_scene1`. -/
theorem claim_C5_witness :
    (detect_clap_sequence ring_scene1 1 0 0).1 = true ∧
    ((∀ i < buffer_size, (detect_clap_sequence ring_scene1 1 0 0).2.data i = 0) ∧
     (detect_clap_sequence (detect_clap_sequence ring_scene1 1 0 0).2
       (clap_sequence_size - 2) 0 0).1 = false) :=
  ⟨by decide, claim_C5 ring_scene1 1 0 0 0 (by decide)⟩

/-- Counterexample to C6 as stated.  With pulse duration 0 and power-rail
sample 0 the guard admits the event, although the power-rail sample is
not above the brownout threshold: the code admits on
`analogRead(BROWNOUT_DETECT_PIN) < BROWNOUT`, not `> BROWNOUT`. -/
theorem claim_C6_cex : loop_admits 0 0 = true ∧ ¬ (BROWNOUT < 0) :=
  ⟨by decide, by decide⟩

/-- Claim C6 (amended): a sensing result is admitted (`on_sound_detected`
invoked) exactly when the measured pulse duration is below
`ULTRASONIC_TIMEOUT` and the power-rail sample is BELOW the brownout
threshold `BROWNOUT` (the comparison direction is forced by
`claim_C6_cex`); in particular a pulse duration at or above the threshold
is never admitted, regardless of the power-rail reading. -/
theorem claim_C6 (pulse_duration brownout_reading : Nat) :
    (loop_admits pulse_duration brownout_reading = true ↔
      pulse_duration < ULTRASONIC_TIMEOUT ∧ brownout_reading < BROWNOUT) ∧
    (ULTRASONIC_TIMEOUT ≤ pulse_duration →
      loop_admits pulse_duration brownout_reading = false) := by
  constructor
  · simp [loop_admits]
  · intro h
    simp only [loop_admits, Bool.and_eq_false_iff, decide_eq_false_iff_not]
    left
    omega

/-- Witness for C6 at a pulse duration equal to the threshold. -/
theorem claim_C6_witness :
    ULTRASONIC_TIMEOUT ≤ 133000 ∧ loop_admits 133000 0 = false :=
  ⟨by decide, (claim_C6 133000 0).2 (by decide)⟩

/-- Claim C7: the matcher is total.  Any activation with
`buffer_position > 15` returns `(false, ring)` immediately for every fuel;
the result of `detect_go` is independent of the fuel once the fuel exceeds
`16 - buffer_position` (so every activation completes within the
hard-coded lookahead bound, which is decoupled from the ring capacity);
and `detect_clap_sequence` — which runs with fuel 17 — coincides with
`detect_go` at every sufficient fuel, for every ring, every
`sequence_position` and every `buffer_position`. -/
theorem claim_C7 :
    (∀ (fuel : Nat) (b : circular_buffer) (s bp cd cs : Nat), bp > 15 →
      detect_go fuel b s bp cd cs = (false, b)) ∧
    (∀ (f₁ f₂ : Nat) (b : circular_buffer) (s bp cd cs : Nat),
      16 - bp < f₁ → 16 - bp < f₂ →
      detect_go f₁ b s bp cd cs = detect_go f₂ b s bp cd cs) ∧
    (∀ (fuel : Nat) (b : circular_buffer) (s bp cs : Nat), 16 - bp < fuel →
      detect_clap_sequence b s bp cs = detect_go fuel b s bp 0 cs) := by
  refine ⟨detect_go_out, detect_go_stable, ?_⟩
  intro fuel b s bp cs h
  exact detect_go_stable 17 fuel b s bp 0 cs (by omega) h

/-- Witness for C7: the guard at `buffer_position = 16`, fuel stability at
fuels 17 and 42, and fuel-irrelevance of the entry point. -/
theorem claim_C7_witness :
    ((16:Nat) > 15) ∧ detect_go 1 cb_init 0 16 0 0 = (false, cb_init) ∧
    ((16:Nat) - 0 < 17) ∧ ((16:Nat) - 0 < 42) ∧
    detect_go 17 ring_scene1 1 0 0 0 = detect_go 42 ring_scene1 1 0 0 0 :=
  ⟨by decide, claim_C7.1 1 cb_init 0 16 0 0 (by decide), by decide, by decide,
   claim_C7.2.1 17 42 ring_scene1 1 0 0 0 (by decide) (by decide)⟩

/-- Claim C8: the matcher's result is a function of the ring contents and
the configured sequence only.  Two calls with identical ring and identical
`sequence_position` / `buffer_position` return the same result for any two
values of the never-read `can_skip` argument; and a call that returns
`false` leaves the ring unchanged, so invoking the matcher again on the
ring it left behind returns `false` again. -/
theorem claim_C8 (b : circular_buffer) (s bp c₁ c₂ : Nat) :
    detect_clap_sequence b s bp c₁ = detect_clap_sequence b s bp c₂ ∧
    ((detect_clap_sequence b s bp c₁).1 = false →
      (detect_clap_sequence b s bp c₁).2 = b ∧
      (detect_clap_sequence (detect_clap_sequence b s bp c₁).2 s bp c₁).1 = false) := by
  refine ⟨detect_go_can_skip 17 b s bp 0 c₁ c₂, ?_⟩
  intro hf
  have h2 : (detect_clap_sequence b s bp c₁).2 = b :=
    detect_go_false_ring 17 b s bp 0 c₁ hf
  exact ⟨h2, by rw [h2]; exact hf⟩

/-- Witness for C8 at the non-matching ring `ring_scene2` and two distinct
`can_skip` values. -/
theorem claim_C8_witness :
    (detect_clap_sequence ring_scene2 1 0 0).1 = false ∧
    ((detect_clap_sequence ring_scene2 1 0 0).2 = ring_scene2 ∧
     (detect_clap_sequence (detect_clap_sequence ring_scene2 1 0 0).2 1 0 0).1 = false) ∧
    detect_clap_sequence ring_scene2 1 0 0 = detect_clap_sequence ring_scene2 1 0 7 :=
  ⟨by decide, (claim_C8 ring_scene2 1 0 0 7).2 (by decide),
   (claim_C8 ring_scene2 1 0 0 7).1⟩

/-- Claim C9: ring totality and age semantics.  The index mask coincides
with reduction modulo the capacity (which is what makes the bitmask
correct, the capacity being the power of two 128); `insert` always
succeeds, writing at the head cursor; and for every list of inserted
samples and every age `i < buffer_size`, `operator[]` returns the sample
inserted `i` insertions earlier — the oldest being silently overwritten
once more than `buffer_size` insertions occurred — or zero for a slot
never written since initialization. -/
theorem claim_C9 :
    (∀ x : Nat, x &&& (buffer_size - 1) = x % buffer_size) ∧
    (∀ (b : circular_buffer) (e : Nat), cb_wf b →
      (cb_insert b e).data b.head = e % ULONG_MOD ∧ cb_wf (cb_insert b e)) ∧
    (∀ (L : List Nat) (i : Nat), (∀ a ∈ L, a < ULONG_MOD) → i < buffer_size →
      cb_get (insert_list cb_init L) i =
        if i < L.length then L.getD (L.length - 1 - i) 0 else 0) := by
  refine ⟨cb_mask_eq_mod, ?_, ?_⟩
  · intro b e hw
    refine ⟨?_, cb_wf_insert b e⟩
    have hlt : b.head < UINT_MOD :=
      lt_trans (by simpa [cb_wf, buffer_size] using hw) (by norm_num [UINT_MOD])
    rw [cb_insert_data, if_pos (Nat.mod_eq_of_lt hlt).symm]
  · exact fun L i hL hi => insert_list_get L cb_init cb_wf_init (fun j _ => rfl) hL i hi

/-- Witness for C9: the insert conjunct at the fresh ring, and the age
semantics at a two-sample history. -/
theorem claim_C9_witness :
    cb_wf cb_init ∧
    ((cb_insert cb_init 5).data cb_init.head = 5 % ULONG_MOD ∧
     cb_wf (cb_insert cb_init 5)) ∧
    ((∀ a ∈ [5, 7], a < ULONG_MOD) ∧ (0 < buffer_size) ∧
     cb_get (insert_list cb_init [5, 7]) 0 =
       if 0 < [5, 7].length then [5, 7].getD ([5, 7].length - 1 - 0) 0 else 0) :=
  ⟨cb_wf_init, claim_C9.2.1 cb_init 5 cb_wf_init,
   ⟨by decide, by decide, claim_C9.2.2 [5, 7] 0 (by decide) (by decide)⟩⟩

/-- Claim C10 (implicit): the gap accumulator truncates modulo the
16-bit `unsigned int` width.  `ring_wrap` replaces the newest sample of
the exact pattern by `clap_sequence_timings[1] + 2^16 = 66536` — a single
interval strictly greater than `target + max_clap_deviation` — and the
matcher nevertheless reports a match, because
`(0 + 66536) % 2^16 = 1000` lands inside the band; exact arithmetic would
reject this interval. -/
theorem claim_C10 :
    cb_get ring_wrap 0 = clap_timing (clap_sequence_size - 2) + UINT_MOD ∧
    cb_get ring_wrap 1 = clap_timing (clap_sequence_size - 3) ∧
    clap_timing (clap_sequence_size - 2) + max_clap_deviation < cb_get ring_wrap 0 ∧
    (0 + cb_get ring_wrap 0) % UINT_MOD = clap_timing (clap_sequence_size - 2) ∧
    (detect_clap_sequence ring_wrap (clap_sequence_size - 2) 0 0).1 = true :=
  ⟨by decide, by decide, by decide, by decide, by decide⟩
